import Mathlib

/-!
Verification of the RAVEN Zcash↔Miden bridge UI and wallet facade.

The TypeScript sources are shallowly embedded: JavaScript strings are
modelled as `List Char`, machine numbers as `ℚ` with explicit IEEE-754
binary64 rounding where the code computes in doubles, and fallible
operations as `Option`/`Except`.  Each definition is translated from the
function of the same name in the repository; the file or component it
comes from is given in its doc comment.
-/

namespace Raven

/-! ## JavaScript character and string primitives -/

/-- The character class `[0-9]` as a Boolean test. -/
def isDigitChar (c : Char) : Bool := 48 ≤ c.toNat && c.toNat ≤ 57

/-- The regex class `[0-9a-fA-F]` (hex digit, either case). -/
def isHexChar (c : Char) : Bool :=
  isDigitChar c || (97 ≤ c.toNat && c.toNat ≤ 102) || (65 ≤ c.toNat && c.toNat ≤ 70)

/-- The regex class `[0-9a-f]` (lowercase hex digit). -/
def isLowerHexChar (c : Char) : Bool :=
  isDigitChar c || (97 ≤ c.toNat && c.toNat ≤ 102)

/-- The regex class `[a-z0-9_]` used by the page's bech32 check. -/
def isBech32Char (c : Char) : Bool :=
  isDigitChar c || (97 ≤ c.toNat && c.toNat ≤ 122) || c = '_'

/-- The regex word class `\w = [A-Za-z0-9_]`, used by `\b` boundaries. -/
def isWordChar (c : Char) : Bool :=
  isDigitChar c || (97 ≤ c.toNat && c.toNat ≤ 122) || (65 ≤ c.toNat && c.toNat ≤ 90) || c = '_'

/-- Whitespace for the purposes of `String.prototype.trim`. -/
def isSpaceChar (c : Char) : Bool := c = ' ' || c = '\t' || c = '\n' || c = '\r'

/-- JavaScript `s.trim()`: strip leading and trailing whitespace. -/
def trimL (l : List Char) : List Char :=
  ((l.dropWhile isSpaceChar).reverse.dropWhile isSpaceChar).reverse

/-- JavaScript `s.startsWith(p)`: `startsWithL p s` is true when `p` is an
initial segment of `s`. -/
def startsWithL : List Char → List Char → Bool
  | [], _ => true
  | _ :: _, [] => false
  | c :: p, d :: s => c = d && startsWithL p s

/-- Strip an optional leading `0x`, as in
`trimmed.startsWith('0x') ? trimmed.slice(2) : trimmed`. -/
def strip0x (s : List Char) : List Char :=
  if startsWithL "0x".data s then s.drop 2 else s

/-- Split on a separator character, keeping empty segments, as JavaScript
`s.split(sep)` does. -/
def splitOnChar (sep : Char) : List Char → List (List Char)
  | [] => [[]]
  | c :: rest =>
    let r := splitOnChar sep rest
    if c = sep then [] :: r
    else
      match r with
      | h :: t => (c :: h) :: t
      | [] => [[c]]


/-! ## `validateAccountId` — bridge page, current revision

From the bridge page (`src/unnamed/part_006`, lines 75–106).  Returns the
error message, `[]` (the empty string) meaning "accepted". -/

namespace BridgePage

/-- `validateAccountId` of the current bridge-page revision: bech32 inputs
(`mtst…`/`mm…`) get a basic shape check; hex inputs must be hex after an
optional `0x` and exactly 30 characters long. -/
def validateAccountId (id : List Char) : List Char :=
  let trimmed := trimL id
  if trimmed = [] then "Account ID cannot be empty".data
  else if startsWithL "mtst".data trimmed || startsWithL "mm".data trimmed then
    if trimmed.length < 10 then "Invalid bech32 format (too short)".data
    else if !trimmed.all isBech32Char then "Invalid bech32 format (invalid characters)".data
    else []
  else
    let hexStr := strip0x trimmed
    if !(!hexStr.isEmpty && hexStr.all isHexChar) then "Invalid hex format".data
    else if hexStr.length ≠ 30 then "Hex account ID must be 30 characters (15 bytes)".data
    else []

/-- The memo prop the bridge page passes to `ZcashSendModal`
(`src/unnamed/part_006`, lines 817–827).  When both `accountId` and
`secret` are non-empty it is `accountIdToUse ++ "|" ++ secretToUse`, where
`accountIdToUse` is the stored hex account id when present (JS
`storedHex || accountId.trim()`, empty string falsy) and `secretToUse` is
the secret with a `0x` put in front unless already there; otherwise it is
`recipientHash`. -/
def memoProp (accountId secret recipientHash : List Char)
    (storedHex : Option (List Char)) : List Char :=
  if accountId ≠ [] ∧ secret ≠ [] then
    let accountIdToUse :=
      match storedHex with
      | some h => if h = [] then trimL accountId else h
      | none => trimL accountId
    let secretToUse := if startsWithL "0x".data secret then secret else "0x".data ++ secret
    accountIdToUse ++ "|".data ++ secretToUse
  else recipientHash

end BridgePage

/-! ## `validateAccountId` — earlier bridge-page revision

From the earlier revision of the bridge page (`src/unnamed/part_008`,
lines 38–69).  Identical except the hex length check demands 64
characters. -/

namespace BridgePageOld

/-- `validateAccountId` of the earlier bridge-page revision: hex inputs
must be exactly 64 characters after the optional `0x`. -/
def validateAccountId (id : List Char) : List Char :=
  let trimmed := trimL id
  if trimmed = [] then "Account ID cannot be empty".data
  else if startsWithL "mtst".data trimmed || startsWithL "mm".data trimmed then
    if trimmed.length < 10 then "Invalid bech32 format (too short)".data
    else if !trimmed.all isBech32Char then "Invalid bech32 format (invalid characters)".data
    else []
  else
    let hexStr := strip0x trimmed
    if !(!hexStr.isEmpty && hexStr.all isHexChar) then "Invalid hex format".data
    else if hexStr.length ≠ 64 then "Hex account ID must be 64 characters (32 bytes)".data
    else []

end BridgePageOld

/-! ## `ZcashSendModal.handleSend` — request body

From `src/app/components/ZcashSendModal.tsx`, lines 83–91: the POST body
sent to `/api/wallet/send` carries the `memo` prop verbatim. -/

namespace ZcashSendModal

/-- The JSON body `handleSend` POSTs to `/api/wallet/send`. -/
structure SendRequestBody where
  address : List Char
  amount : List Char
  memo : List Char
  deriving DecidableEq, Repr

/-- `handleSend`'s body construction: `address` is the bridge address,
`amount` the cleaned amount string, `memo` the modal's memo prop,
unchanged. -/
def handleSendBody (bridgeAddress memoArg amount : List Char) : SendRequestBody :=
  { address := bridgeAddress, amount := amount, memo := memoArg }

end ZcashSendModal

/-! ## `generateSecret` — hex encoding of the 32 random bytes

From the bridge page (`src/unnamed/part_006`, lines 65–73, and the inline
copy in `generateHash`, lines 134–141; same code in `src/unnamed/part_008`
and `src/unnamed/part_012`): each byte is rendered with
`b.toString(16).padStart(2, '0')` and the pieces are joined.  The random
byte values themselves are the function's input here. -/

/-- The hex digit JavaScript `Number.prototype.toString(16)` uses for a
value below 16: `0`–`9` then lowercase `a`–`f`. -/
def hexDigitChar (n : ℕ) : Char := if n < 10 then Char.ofNat (48 + n) else Char.ofNat (87 + n)

/-- Digit accumulation for base-16 rendering (most significant first); the
first argument is a structural fuel bound so the recursion reduces in the
kernel, and `n` iterations always suffice for the value `n`. -/
def toHexAux : ℕ → ℕ → List Char → List Char
  | 0, _, acc => acc
  | fuel + 1, n, acc =>
    if n = 0 then acc else toHexAux fuel (n / 16) (hexDigitChar (n % 16) :: acc)

/-- JavaScript `n.toString(16)` for a natural number: lowercase hex with no
leading zeros, `"0"` for zero. -/
def jsToString16 (n : ℕ) : List Char := if n = 0 then ['0'] else toHexAux n n []

/-- JavaScript `s.padStart(2, '0')`. -/
def padStart2 (l : List Char) : List Char :=
  if l.length ≥ 2 then l else List.replicate (2 - l.length) '0' ++ l

/-- One byte of the secret: `b.toString(16).padStart(2, '0')`. -/
def byteToHex (b : ℕ) : List Char := padStart2 (jsToString16 b)

/-- `generateSecret`'s hex string: map `byteToHex` over the 32 random
bytes and join with `''`. -/
def generateSecretHex (bytes : List ℕ) : List Char := (bytes.map byteToHex).flatten

/-- `generateHash`'s `secretWithPrefix`: the secret with `0x` put in front
unless it already starts with `0x`. -/
def secretWith0x (s : List Char) : List Char :=
  if startsWithL "0x".data s then s else "0x".data ++ s

/-- Value of a single hex character, either case. -/
def hexVal (c : Char) : Option ℕ :=
  if 48 ≤ c.toNat ∧ c.toNat ≤ 57 then some (c.toNat - 48)
  else if 97 ≤ c.toNat ∧ c.toNat ≤ 102 then some (c.toNat - 87)
  else if 65 ≤ c.toNat ∧ c.toNat ≤ 70 then some (c.toNat - 55)
  else none

/-- Decode a hex string into bytes, two characters per byte; `none` on an
odd length or a non-hex character. -/
def decodeHexL : List Char → Option (List ℕ)
  | [] => some []
  | [_] => none
  | c1 :: c2 :: rest =>
    match hexVal c1, hexVal c2, decodeHexL rest with
    | some h1, some h2, some bs => some ((16 * h1 + h2) :: bs)
    | _, _, _ => none

/-- Modelled from the spec: the recipient-hash derivation runs in the Rust
bridge backend, which is not among this repository's sources.  Per the
spec it accepts the secret "with or without `0x`" and "Fails with
`MalformedSecret` when the secret is not 32 bytes".  This predicate is
true exactly when the `MalformedSecret` failure is avoided, i.e. when the
secret decodes to exactly 32 bytes after the optional `0x` is stripped. -/
def secretNotMalformed (s : List Char) : Bool :=
  match decodeHexL (strip0x s) with
  | some bs => bs.length == 32
  | none => false

/-! ## IEEE-754 binary64 arithmetic

The amount conversions run on JavaScript numbers (binary64 doubles).  A
double is modelled as the exact rational it denotes, represented by an
unnormalised fraction (`Frac`, an integer numerator over a positive
natural denominator) so that every computation is plain integer
arithmetic; `roundB64` is the round-to-nearest-even rounding every
arithmetic primitive applies to its exact rational result.  The modelled
paths only involve nonnegative normal values, far from overflow and
subnormals, so those ranges are not treated. -/

/-- An unnormalised fraction: `num / den`, with `den` positive in every
value the development constructs. -/
structure Frac where
  num : ℤ
  den : ℕ
  deriving DecidableEq, Repr

/-- The rational a fraction denotes (for specification statements). -/
def Frac.toRat (q : Frac) : ℚ := (q.num : ℚ) / (q.den : ℚ)

/-- Fraction multiplication. -/
def fmul (a b : Frac) : Frac := ⟨a.num * b.num, a.den * b.den⟩

/-- Fraction addition. -/
def fadd (a b : Frac) : Frac := ⟨a.num * b.den + b.num * a.den, a.den * b.den⟩

/-- Embed an integer. -/
def fofInt (n : ℤ) : Frac := ⟨n, 1⟩

/-- Floor of a fraction with positive denominator (Euclidean division by a
positive integer is the floor). -/
def ffloor (q : Frac) : ℤ := q.num.ediv q.den

/-- `2 ^ k` for an integer exponent, as a fraction. -/
def fpow2 (k : ℤ) : Frac := if 0 ≤ k then ⟨2 ^ k.toNat, 1⟩ else ⟨1, 2 ^ (-k).toNat⟩

/-- Base-2 logarithm by structural recursion on a fuel bound (so that the
kernel can evaluate it). -/
def log2fuel : ℕ → ℕ → ℕ
  | 0, _ => 0
  | fuel + 1, n => if n < 2 then 0 else log2fuel fuel (n / 2) + 1

/-- `⌊log₂ n⌋` for `n ≥ 1` (and `0` for `n = 0`). -/
def natLog2 (n : ℕ) : ℕ := log2fuel n n

/-- Round a fraction to the nearest integer, ties to even.  `r2` is the
numerator of twice the fractional part over the fraction's denominator. -/
def frhe (q : Frac) : ℤ :=
  let f := ffloor q
  let r2 := 2 * (q.num - f * q.den)
  if r2 < (q.den : ℤ) then f
  else if (q.den : ℤ) < r2 then f + 1
  else if f % 2 = 0 then f else f + 1

/-- The binade exponent of a positive fraction: the integer `e` with
`2 ^ e ≤ q < 2 ^ (e + 1)`.  The first estimate from the numerator's and
denominator's bit lengths is at most one too high and is corrected. -/
def findExp (q : Frac) : ℤ :=
  let est : ℤ := (natLog2 q.num.toNat : ℤ) - (natLog2 q.den : ℤ)
  if (fpow2 (est + 1)).num * (q.den : ℤ) ≤ q.num * ((fpow2 (est + 1)).den : ℤ) then est + 1
  else if q.num * ((fpow2 est).den : ℤ) < (fpow2 est).num * (q.den : ℤ) then est - 1
  else est

/-- Round a nonnegative fraction to the nearest binary64 value (53-bit
significand, round half to even). -/
def roundB64 (q : Frac) : Frac :=
  if q.num ≤ 0 then ⟨0, 1⟩
  else
    let e := findExp q
    fmul (fofInt (frhe (fmul q (fpow2 (52 - e))))) (fpow2 (e - 52))

/-- JavaScript `Math.round` on a nonnegative double: round half up. -/
def jsRound (q : Frac) : ℤ := ffloor (fadd q ⟨1, 2⟩)

/-- Numeric value of a nonempty digit string (also models `parseInt` on a
captured digit group). -/
def natOfDigits (l : List Char) : ℕ := l.foldl (fun a c => 10 * a + (c.toNat - 48)) 0

/-- The exact rational value of a plain nonnegative decimal literal —
digits with an optional decimal point, as produced by the amount inputs.
`none` models the `NaN` parses (`parseFloat` returning `NaN`); other
`parseFloat` liberties (signs, exponents, trailing garbage) never arise on
the modelled paths. -/
def parseDecimal (s : List Char) : Option Frac :=
  match splitOnChar '.' s with
  | [a] => if a ≠ [] ∧ a.all isDigitChar then some ⟨natOfDigits a, 1⟩ else none
  | [a, b] =>
    if (a ≠ [] ∨ b ≠ []) ∧ a.all isDigitChar ∧ b.all isDigitChar then
      some ⟨natOfDigits a * 10 ^ b.length + natOfDigits b, 10 ^ b.length⟩
    else none
  | _ => none

/-- `parseFloat` on an amount string: the decimal value rounded to the
nearest double. -/
def parseFloatB64 (s : List Char) : Option Frac := (parseDecimal s).map roundB64

/-! ## Amount conversions

`zecToZatoshis` from `src/unnamed/part_010` (lines 233–236), the
withdrawal conversion from the bridge page (`src/unnamed/part_006`, lines
358–360), and `sendTransaction` from `src/lib/zcash-cli.ts` (current
revision, lines 231–280). -/

/-- The double computation `Math.floor(x * 100000000)` applied to a parsed
amount `v`: the multiplication is one binary64 operation, then the floor. -/
def floorTimes1e8 (v : Frac) : ℤ := ffloor (roundB64 (fmul (roundB64 v) (fofInt 100000000)))

/-- `zecToZatoshis(zec)` (string input):
`Math.floor(parseFloat(zec) * 100000000).toString()`.  `none` is the `NaN`
parse. -/
def zecToZatoshis (zec : List Char) : Option (List Char) :=
  (parseDecimal zec).map fun v => (Int.repr (floorTimes1e8 v)).data

/-- The bridge page's withdrawal conversion
`Math.floor(parseFloat(withdrawalAmount) * 1e8)`. -/
def handleWithdrawAmountBase (amount : List Char) : Option ℤ :=
  (parseDecimal amount).map floorTimes1e8

/-- `sendTransaction` (current revision of `src/lib/zcash-cli.ts`): parse
the amount, reject `NaN` and negatives, convert with
`Math.round(amountNum * 100_000_000)`, and build the CLI argument list.
The wallet-sync side effect before the send does not touch the
arguments. -/
def sendTransactionArgs (walletDir identityFile address amount : List Char)
    (memoArg accountId : Option (List Char)) : Option (List (List Char)) :=
  match parseDecimal amount with
  | none => none
  | some v =>
    if (roundB64 v).num < 0 then none
    else
      let zatoshis : ℤ := jsRound (roundB64 (fmul (roundB64 v) (fofInt 100000000)))
      let zatoshisString := (Int.repr zatoshis).data
      some
        (["wallet".data, "-w".data, walletDir, "send".data,
          "--identity".data, identityFile,
          "--address".data, address,
          "--value".data, zatoshisString,
          "--target-note-count".data, "1".data,
          "-s".data, "zecrocks".data]
          ++ (match accountId with
              | some a => ["--account-id".data, a]
              | none => [])
          ++ (match memoArg with
              | some m => ["--memo".data, m]
              | none => []))

/-- The `/api/wallet/send` route (`src/unnamed/part_002`, line 16) hands
the request body's `amount` to `sendTransaction` verbatim. -/
def sendRouteCLIAmount (amount : List Char) : List Char := amount

/-- The wallet page's `handleSend` (`src/app/wallet/page.tsx`, lines
333–348) converts the form amount with `zecToZatoshis` before posting it
as the request body's `amount`. -/
def walletPageSendAmount (sendAmount : List Char) : Option (List Char) :=
  zecToZatoshis sendAmount

/-! ## `execZcashCommand` — txid extraction

From `src/lib/zcash-cli.ts` (lines 19–47 and the later revision, lines
161–201; the txid parsing is identical in both):
`stdout.match(/\b([a-f0-9]{64})\b/i)`.  The regex semantics: the leftmost
position where a `\b` boundary is followed by 64 hex characters (either
case, because of the `i` flag) and another `\b` boundary. -/

/-- `\b` before the match: start of input, or a non-word character. -/
def boundaryBeforeOk (prev : Option Char) : Bool :=
  match prev with
  | none => true
  | some c => !isWordChar c

/-- `\b` after the match: end of input, or a non-word character. -/
def boundaryAfterOk (rest : List Char) : Bool :=
  match rest with
  | [] => true
  | c :: _ => !isWordChar c

/-- Does `[a-f0-9]{64}\b` (with the `i` flag) match at the head of `l`? -/
def hex64At (l : List Char) : Bool :=
  ((l.take 64).length == 64) && (l.take 64).all isHexChar && boundaryAfterOk (l.drop 64)

/-- Leftmost-match scan for `/\b([a-f0-9]{64})\b/i`, carrying the
character before the current position. -/
def scanTxid (prev : Option Char) : List Char → Option (List Char)
  | [] => if boundaryBeforeOk prev && hex64At [] then some (([] : List Char).take 64) else none
  | c :: rest =>
    if boundaryBeforeOk prev && hex64At (c :: rest) then some ((c :: rest).take 64)
    else scanTxid (some c) rest


/-- The character just before a position: the last of the consumed list,
falling back to the outer predecessor. -/
def lastOrElse (pre : List Char) (prev : Option Char) : Option Char :=
  match pre.getLast? with
  | some c => some c
  | none => prev

/-- The capture of `stdout.match(/\b([a-f0-9]{64})\b/i)`. -/
def firstTxidToken (stdoutS : List Char) : Option (List Char) := scanTxid none stdoutS

/-- The claim's own reading, for comparison: the first 64-character
substring consisting of hex characters, with no boundary requirement. -/
def firstHex64Substring : List Char → Option (List Char)
  | [] => none
  | c :: rest =>
    if (((c :: rest).take 64).length == 64) && ((c :: rest).take 64).all isHexChar then
      some ((c :: rest).take 64)
    else firstHex64Substring rest

/-- The result record `execZcashCommand` resolves with. -/
structure ZcashCommandResult where
  stdout : List Char
  stderr : List Char
  success : Bool
  txid : Option (List Char) := none
  error : Option (List Char) := none

/-- The data carried by a rejected `execAsync` promise: captured streams
and the `Error`'s message. -/
structure ExecError where
  stdout : List Char
  stderr : List Char
  message : List Char

/-- JavaScript `a || b` on strings already lifted to `Option`: the
fallback fires on `undefined` and on the empty string. -/
def jsOr (v : Option (List Char)) (d : List Char) : List Char :=
  match v with
  | some s => if s = [] then d else s
  | none => d

/-- `execZcashCommand`: the spawned process's outcome is the input.  On
success the txid is parsed from stdout; the argument list only shapes the
command string and never influences the result record. -/
def execZcashCommand (_args : List (List Char))
    (outcome : Except ExecError (List Char × List Char)) : ZcashCommandResult :=
  match outcome with
  | .ok (out, err) =>
    { stdout := out, stderr := err, success := true, txid := firstTxidToken out, error := none }
  | .error e =>
    { stdout := e.stdout,
      stderr := jsOr (some e.stderr) (jsOr (some e.message) "Unknown error".data),
      success := false,
      txid := none,
      error := some (jsOr (some e.message) "Command execution failed".data) }

/-! ## `parseTransactions` — wallet CLI output parser

From `src/unnamed/part_010`, lines 32–177.  The line-oriented regexes are
transcribed as small scanners; each `match` that fails leaves the record
untouched, as in the source. -/

/-- Require one-or-more whitespace (`\s+`) and consume the run. -/
def skipSpaces1 (l : List Char) : Option (List Char) :=
  match l with
  | c :: rest => if isSpaceChar c then some (rest.dropWhile isSpaceChar) else none
  | [] => none

/-- Capture `(\d+)`: the maximal nonempty digit run and the remainder. -/
def takeDigits1 (l : List Char) : Option (ℕ × List Char) :=
  let ds := l.takeWhile isDigitChar
  if ds.isEmpty then none else some (natOfDigits ds, l.drop ds.length)

/-- Capture `([\d.]+)`: maximal nonempty run of digits and dots. -/
def takeNumDot1 (l : List Char) : Option (List Char × List Char) :=
  let ds := l.takeWhile (fun c => isDigitChar c || c = '.')
  if ds.isEmpty then none else some (ds, l.drop ds.length)

/-- Capture `(\w+)`: maximal nonempty word-character run. -/
def takeWord1 (l : List Char) : Option (List Char × List Char) :=
  let ds := l.takeWhile isWordChar
  if ds.isEmpty then none else some (ds, l.drop ds.length)

/-- Match a literal and consume it. -/
def dropLit (lit l : List Char) : Option (List Char) :=
  if startsWithL lit l then some (l.drop lit.length) else none

/-- The remainder after the first occurrence of a literal (an unanchored
regex search for it); `none` when absent. -/
def afterFirst (lit : List Char) : List Char → Option (List Char)
  | [] => if lit = [] then some [] else none
  | c :: rest =>
    if startsWithL lit (c :: rest) then some ((c :: rest).drop lit.length)
    else afterFirst lit rest

/-- An unanchored containment test (`line.includes(...)` and bare regex
searches). -/
def containsSub (lit l : List Char) : Bool := (afterFirst lit l).isSome

/-- Capture `([^)]+)\)`: nonempty run up to a required `)`, consuming it. -/
def takeUntilParen (l : List Char) : Option (List Char × List Char) :=
  let ds := l.takeWhile (fun c => c ≠ ')')
  if ds.isEmpty then none
  else
    match l.drop ds.length with
    | ')' :: rest => some (ds, rest)
    | _ => none

/-- Capture `([^(]+)\s+\(`: nonempty run up to a required `(` whose last
character is whitespace (the `\s+` the regex demands before the paren),
consuming the paren. -/
def takeUntilOpenParen (l : List Char) : Option (List Char × List Char) :=
  let ds := l.takeWhile (fun c => c ≠ '(')
  if ds.isEmpty then none
  else if !(match ds.reverse with | c :: _ => isSpaceChar c | [] => false) then none
  else
    match l.drop ds.length with
    | '(' :: rest => some (ds, rest)
    | _ => none

/-- Capture `([^"]+)"`: nonempty run up to a required `"`, consuming it. -/
def takeUntilQuote (l : List Char) : Option (List Char × List Char) :=
  let ds := l.takeWhile (fun c => c ≠ '"')
  if ds.isEmpty then none
  else
    match l.drop ds.length with
    | '"' :: rest => some (ds, rest)
    | _ => none

/-- Transaction status as in the `ParsedTransaction` interface. -/
inductive TxStatus where
  | mined
  | unmined
  | expired
  deriving DecidableEq, Repr

/-- One parsed output block. -/
structure ParsedOutput where
  index : ℕ := 0
  pool : List Char := "Unknown".data
  isChange : Bool := false
  value : Option (List Char) := none
  fromAccount : Option (List Char) := none
  toAccount : Option (List Char) := none
  toAddress : Option (List Char) := none
  memo : Option (List Char) := none
  deriving DecidableEq, Repr

/-- One parsed transaction; fields the loop may never set are options. -/
structure ParsedTransaction where
  txid : List Char
  status : TxStatus := .mined
  height : Option ℕ := none
  date : Option (List Char) := none
  expiryHeight : Option ℕ := none
  amount : Option (List Char) := none
  fee : Option (List Char) := none
  sentNotes : Option ℕ := none
  receivedNotes : Option ℕ := none
  memoCount : Option ℕ := none
  outputs : List ParsedOutput := []
  deriving DecidableEq, Repr

/-- `/Mined:\s+(\d+)\s+\(([^)]+)\)/` on a line known to start with
`Mined:`. -/
def parseMined (t : List Char) : Option (ℕ × List Char) := do
  let r ← dropLit "Mined:".data t
  let r ← skipSpaces1 r
  let (h, r) ← takeDigits1 r
  let r ← skipSpaces1 r
  let r ← dropLit "(".data r
  let (d, _) ← takeUntilParen r
  pure (h, d)

/-- `/expiry height:\s+(\d+)/`, searched anywhere in the line. -/
def parseExpiry (t : List Char) : Option ℕ := do
  let r ← afterFirst "expiry height:".data t
  let r ← skipSpaces1 r
  let (n, _) ← takeDigits1 r
  pure n

/-- `/Amount:\s+([\d.]+)\s+ZEC/` on a line starting with `Amount:`. -/
def parseAmountLine (t : List Char) : Option (List Char) := do
  let r ← dropLit "Amount:".data t
  let r ← skipSpaces1 r
  let (a, r) ← takeNumDot1 r
  let r ← skipSpaces1 r
  let _ ← dropLit "ZEC".data r
  pure a

/-- `/Fee paid:\s+([\d.]+)\s+ZEC/` on a line starting with `Fee paid:`. -/
def parseFeeLine (t : List Char) : Option (List Char) := do
  let r ← dropLit "Fee paid:".data t
  let r ← skipSpaces1 r
  let (a, r) ← takeNumDot1 r
  let r ← skipSpaces1 r
  let _ ← dropLit "ZEC".data r
  pure a

/-- `/Sent\s+(\d+)\s+notes,\s+received\s+(\d+)\s+notes,\s+(\d+)\s+memos/`. -/
def parseNotesLine (t : List Char) : Option (ℕ × ℕ × ℕ) := do
  let r ← dropLit "Sent".data t
  let r ← skipSpaces1 r
  let (s, r) ← takeDigits1 r
  let r ← skipSpaces1 r
  let r ← dropLit "notes,".data r
  let r ← skipSpaces1 r
  let r ← dropLit "received".data r
  let r ← skipSpaces1 r
  let (rc, r) ← takeDigits1 r
  let r ← skipSpaces1 r
  let r ← dropLit "notes,".data r
  let r ← skipSpaces1 r
  let (m, r) ← takeDigits1 r
  let r ← skipSpaces1 r
  let _ ← dropLit "memos".data r
  pure (s, rc, m)

/-- `/Output\s+(\d+)\s+\((\w+)\)/` on a line starting with `Output`. -/
def parseOutputHeader (t : List Char) : Option (ℕ × List Char) := do
  let r ← dropLit "Output".data t
  let r ← skipSpaces1 r
  let (i, r) ← takeDigits1 r
  let r ← skipSpaces1 r
  let r ← dropLit "(".data r
  let (w, r) ← takeWord1 r
  let _ ← dropLit ")".data r
  pure (i, w)

/-- `/Value:\s+([\d.]+)\s+ZEC/` on a line starting with `Value:`. -/
def parseValueLine (t : List Char) : Option (List Char) := do
  let r ← dropLit "Value:".data t
  let r ← skipSpaces1 r
  let (a, r) ← takeNumDot1 r
  let r ← skipSpaces1 r
  let _ ← dropLit "ZEC".data r
  pure a

/-- `/Sent from account:\s+([^(]+)\s+\(([^)]+)\)/`; only group 2 (the
parenthesised id) is used, `.trim()`med. -/
def parseFromAccount (t : List Char) : Option (List Char) := do
  let r ← dropLit "Sent from account:".data t
  let r ← skipSpaces1 r
  let (_, r) ← takeUntilOpenParen r
  let (acc, _) ← takeUntilParen r
  pure (trimL acc)

/-- `/Received by account:\s+([^(]+)\s+\(([^)]+)\)/`; group 2, trimmed. -/
def parseToAccount (t : List Char) : Option (List Char) := do
  let r ← dropLit "Received by account:".data t
  let r ← skipSpaces1 r
  let (_, r) ← takeUntilOpenParen r
  let (acc, _) ← takeUntilParen r
  pure (trimL acc)

/-- `/To:\s+(.+)/`; the capture is trimmed. -/
def parseToAddress (t : List Char) : Option (List Char) := do
  let r ← dropLit "To:".data t
  let r ← skipSpaces1 r
  if r = [] then none else pure (trimL r)

/-- `/Memo:\s+(.+)/` with the inner `Memo::Text("...")` and `Memo::Empty`
handling. -/
def parseMemoLine (t : List Char) : Option (List Char) := do
  let r ← dropLit "Memo:".data t
  let r ← skipSpaces1 r
  if r = [] then none
  else
    let m := trimL r
    match (do
        let r2 ← afterFirst "Memo::Text(\"".data m
        let (txt, r3) ← takeUntilQuote r2
        let _ ← dropLit ")".data r3
        pure txt : Option (List Char)) with
    | some txt => pure txt
    | none => if m = "Memo::Empty".data then pure [] else pure m

/-- The `Mined:` branch of the loop body. -/
def updateMined (t : List Char) (tx : ParsedTransaction) : ParsedTransaction :=
  if startsWithL "Mined:".data t then
    match parseMined t with
    | some (h, d) => { tx with status := .mined, height := some h, date := some d }
    | none => tx
  else tx

/-- The `Unmined`/`Expired` branch of the loop body. -/
def updateUnmined (t : List Char) (tx : ParsedTransaction) : ParsedTransaction :=
  if startsWithL "Unmined".data t || startsWithL "Expired".data t then
    match parseExpiry t with
    | some eh =>
      { tx with status := if startsWithL "Expired".data t then .expired else .unmined,
                expiryHeight := some eh }
    | none => tx
  else tx

/-- The `Amount:` branch of the loop body. -/
def updateAmount (t : List Char) (tx : ParsedTransaction) : ParsedTransaction :=
  if startsWithL "Amount:".data t then
    match parseAmountLine t with
    | some a => { tx with amount := some a }
    | none => tx
  else tx

/-- The `Fee paid:` branch of the loop body. -/
def updateFee (t : List Char) (tx : ParsedTransaction) : ParsedTransaction :=
  if startsWithL "Fee paid:".data t then
    match parseFeeLine t with
    | some f => { tx with fee := some f }
    | none => if containsSub "Unknown".data t then { tx with fee := some "Unknown".data } else tx
  else tx

/-- The `Sent … notes` branch of the loop body. -/
def updateNotes (t : List Char) (tx : ParsedTransaction) : ParsedTransaction :=
  if startsWithL "Sent".data t && containsSub "notes".data t then
    match parseNotesLine t with
    | some (s, rc, m) =>
      { tx with sentNotes := some s, receivedNotes := some rc, memoCount := some m }
    | none => tx
  else tx

/-- The transaction-level branches of the loop body (status, amount, fee,
note counters), in source order; a failed match leaves the record as it
was. -/
def updateTxLine (t : List Char) (tx : ParsedTransaction) : ParsedTransaction :=
  updateNotes t (updateFee t (updateAmount t (updateUnmined t (updateMined t tx))))

/-- The output-level branches of the loop body (`Value:`, accounts, `To:`,
`Memo:`); run when `inOutput` holds and an output is current. -/
def updateOutputLine (t : List Char) (o : ParsedOutput) : ParsedOutput :=
  let o :=
    if startsWithL "Value:".data t then
      let o :=
        match parseValueLine t with
        | some v => { o with value := some v }
        | none => o
      if containsSub "(Change)".data t then { o with isChange := true } else o
    else o
  let o :=
    if startsWithL "Sent from account:".data t then
      match parseFromAccount t with
      | some a => { o with fromAccount := some a }
      | none => o
    else o
  let o :=
    if startsWithL "Received by account:".data t then
      match parseToAccount t with
      | some a => { o with toAccount := some a }
      | none => o
    else o
  let o :=
    if startsWithL "To:".data t then
      match parseToAddress t with
      | some a => { o with toAddress := some a }
      | none => o
    else o
  let o :=
    if startsWithL "Memo:".data t then
      match parseMemoLine t with
      | some m => { o with memo := some m }
      | none => o
    else o
  o

/-- The fresh output record an `Output n (Pool)` header line opens. -/
def newOutputFrom (t : List Char) : ParsedOutput :=
  match parseOutputHeader t with
  | some (i, w) => { index := i, pool := w, isChange := false }
  | none => { index := 0, pool := "Unknown".data, isChange := false }

/-- The loop's mutable state. -/
structure ParseState where
  transactions : List ParsedTransaction := []
  currentTx : Option ParsedTransaction := none
  currentOutput : Option ParsedOutput := none
  inOutput : Bool := false

/-- `/^[a-f0-9]{64}$/i` on the trimmed line. -/
def isTxidLine (t : List Char) : Bool := (t.length == 64) && t.all isHexChar

/-- Flush the current transaction (with its pending output) onto the
result list, as done on a new txid line and at the end of the input. -/
def pushCurrent (st : ParseState) : List ParsedTransaction :=
  match st.currentTx with
  | some tx =>
    st.transactions ++
      [match st.currentOutput with
       | some o => { tx with outputs := tx.outputs ++ [o] }
       | none => tx]
  | none => st.transactions

/-- One iteration of the `parseTransactions` loop on a raw line. -/
def stepLine (st : ParseState) (line : List Char) : ParseState :=
  let t := trimL line
  if isTxidLine t then
    { transactions := pushCurrent st,
      currentTx := some { txid := t, outputs := [], status := .mined },
      currentOutput := none,
      inOutput := false }
  else
    match st.currentTx with
    | none => st
    | some tx =>
      let tx := updateTxLine t tx
      let (tx, curOut, inOut) :=
        if startsWithL "Output".data t && t.contains '(' then
          (match st.currentOutput with
           | some o => { tx with outputs := tx.outputs ++ [o] }
           | none => tx,
           some (newOutputFrom t), true)
        else (tx, st.currentOutput, st.inOutput)
      let curOut := if inOut then curOut.map (updateOutputLine t) else curOut
      { transactions := st.transactions, currentTx := some tx,
        currentOutput := curOut, inOutput := inOut }

/-- `parseTransactions`: fold the loop over the `\n`-split lines and flush
the last transaction. -/
def parseTransactions (output : List Char) : List ParsedTransaction :=
  pushCurrent ((splitOnChar '\n' output).foldl stepLine {})

/-! ## `parseBalance` — balance CLI output parser

From `src/lib/zcash-cli.ts`, lines 283–316 (identical in both revisions).
Only the shape of its result feeds the balance route's success body. -/

/-- Capture `(\d+\.\d+)`: digits, a dot, digits, returned verbatim. -/
def takeDecimalCapture (l : List Char) : Option (List Char) := do
  let (a, _) ← takeNumDot1 l
  let ds1 := a.takeWhile isDigitChar
  if ds1.isEmpty then none
  else
    match a.drop ds1.length with
    | '.' :: ds2 =>
      if ds2 ≠ [] ∧ ds2.all isDigitChar then pure (ds1 ++ '.' :: ds2) else none
    | _ => none

/-- Search `/LABEL\s+(\d+\.\d+)/` anywhere in the line. -/
def searchLabeledDecimal (lbl t : List Char) : Option (List Char) := do
  let r ← afterFirst lbl t
  let r ← skipSpaces1 r
  takeDecimalCapture r

/-- Render a nonnegative fraction to 8 decimal places, as
`Number.prototype.toFixed(8)` does on the modelled values (rounding to
nearest). -/
def toFixed8 (q : Frac) : List Char :=
  let n : ℕ := (jsRound (fmul q (fofInt 100000000))).toNat
  let frac := (Nat.repr (n % 100000000)).data
  (Nat.repr (n / 100000000)).data ++ '.' :: (List.replicate (8 - frac.length) '0' ++ frac)

/-- `parseBalance`: fold the three labelled-line matches over the lines;
the Orchard line adds the two spendable figures as doubles and re-formats
with `toFixed(8)`. -/
def parseBalance (output : List Char) : List Char × List Char × List Char :=
  (splitOnChar '\n' output).foldl
    (fun acc line =>
      let (total, spendable, pending) := acc
      let total :=
        if startsWithL "Balance:".data (trimL line) then
          match searchLabeledDecimal "Balance:".data line with
          | some v => v
          | none => total
        else total
      let spendable :=
        if containsSub "Sapling Spendable:".data line then
          match searchLabeledDecimal "Sapling Spendable:".data line with
          | some v => v
          | none => spendable
        else spendable
      let spendable :=
        if containsSub "Orchard Spendable:".data line then
          match searchLabeledDecimal "Orchard Spendable:".data line with
          | some v =>
            let orchard := ((parseDecimal v).map roundB64).getD ⟨0, 1⟩
            let sapling := ((parseDecimal spendable).map roundB64).getD ⟨0, 1⟩
            toFixed8 (roundB64 (fadd orchard sapling))
          | none => spendable
        else spendable
      (total, spendable, pending))
    ("0".data, "0".data, "0".data)

/-! ## Wallet facade routes

The Next.js route handlers for balance (current revision,
`src/app/api/wallet/balance/route.ts`), transactions (current revision,
`src/unnamed/part_003`), and send (`src/unnamed/part_002`).  Each handler
is a total function from the CLI call's outcome (`Except` carrying a
thrown error's message) to the HTTP response; the `try`/`catch` that makes
it total is the `.error` branch. -/

/-- A JSON value as the routes build them. -/
inductive JVal where
  | str (s : List Char)
  | bool (b : Bool)
  | num (n : ℚ)
  | obj (fields : List (List Char × JVal))

/-- An HTTP response: status code and JSON object body (an association
list in the field order the source writes). -/
structure ApiResponse where
  status : ℕ
  body : List (List Char × JVal)

/-- `GET /api/wallet/balance` (current revision). -/
def balanceRoute (outcome : Except (List Char) ZcashCommandResult) : ApiResponse :=
  match outcome with
  | .error msg =>
    { status := 500,
      body := [("success".data, .bool false),
               ("error".data, .str (jsOr (some msg) "Internal server error".data))] }
  | .ok result =>
    if !result.success then
      { status := 500,
        body := [("success".data, .bool false),
                 ("error".data, .str (jsOr result.error "Failed to get balance".data)),
                 ("stderr".data, .str result.stderr)] }
    else
      let (total, spendable, pending) := parseBalance result.stdout
      { status := 200,
        body := [("success".data, .bool true),
                 ("balance".data,
                  .obj [("total".data, .str total), ("spendable".data, .str spendable),
                        ("pending".data, .str pending)]),
                 ("raw".data, .str result.stdout)] }

/-- `GET /api/wallet/transactions` (current revision). -/
def transactionsRoute (outcome : Except (List Char) ZcashCommandResult) : ApiResponse :=
  match outcome with
  | .error msg =>
    { status := 500,
      body := [("success".data, .bool false),
               ("error".data, .str (jsOr (some msg) "Internal server error".data))] }
  | .ok result =>
    if !result.success then
      { status := 500,
        body := [("success".data, .bool false),
                 ("error".data, .str (jsOr result.error "Failed to list transactions".data)),
                 ("stderr".data, .str result.stderr)] }
    else
      { status := 200,
        body := [("success".data, .bool true),
                 ("transactions".data, .str result.stdout),
                 ("raw".data, .str result.stdout)] }

/-- `POST /api/wallet/send` (`src/unnamed/part_002`). -/
def sendRoute (address amount : List Char)
    (outcome : Except (List Char) ZcashCommandResult) : ApiResponse :=
  if address = [] ∨ amount = [] then
    { status := 400, body := [("error".data, .str "Address and amount are required".data)] }
  else
    match outcome with
    | .error msg =>
      { status := 500,
        body := [("error".data, .str (jsOr (some msg) "Internal server error".data))] }
    | .ok result =>
      if !result.success then
        { status := 500,
          body := [("error".data, .str (jsOr result.error "Failed to send transaction".data)),
                   ("stderr".data, .str result.stderr),
                   ("stdout".data, .str result.stdout)] }
      else
        { status := 200,
          body := [("success".data, .bool true)] ++
            (match result.txid with
             | some t => [("txid".data, .str t)]
             | none => []) ++
            [("message".data, .str "Transaction sent successfully".data),
             ("output".data, .str result.stdout)] }

/-! ## Bridge store — `claim_deposit`

Modelled from the spec: the deposit/withdrawal state store is part of the
Rust backend engine, not among this repository's sources.  Per the spec,
`claim_deposit(source_txid)` "atomically binds a confirmed deposit to its
open intent; a subsequent call with the same txid returns `None`"; the
store keeps an idempotency log keyed by source txid, a unique index on
`recipient_hash` for intents, and back-creates an intent row when a valid
memo hash matches no stored intent. -/

/-- A deposit intent row (the fields the claim needs). -/
structure DepositIntent where
  accountId : List Char
  recipientHash : List Char
  deriving DecidableEq, Repr

/-- A confirmed source-chain deposit as the relayer observes it. -/
structure ConfirmedDeposit where
  txid : List Char
  recipientHash : List Char
  amountBase : ℕ
  deriving DecidableEq, Repr

/-- The store state: intents keyed by recipient hash, and the idempotency
log of already-claimed source txids. -/
structure BridgeStore where
  intents : List (List Char × DepositIntent) := []
  claimed : List (List Char) := []
  deriving DecidableEq, Repr

/-- Modelled from the spec: the intent row back-created when no stored
intent matches the memo's hash (only the hash is known at that point). -/
def backCreateIntent (h : List Char) : DepositIntent :=
  { accountId := [], recipientHash := h }

/-- Modelled from the spec: `claim_deposit(source_txid)` — `none` when the
txid is already in the idempotency log; otherwise bind (back-creating the
intent if needed), record the txid, and return the intent. -/
def claim_deposit (st : BridgeStore) (d : ConfirmedDeposit) :
    Option DepositIntent × BridgeStore :=
  if st.claimed.contains d.txid then (none, st)
  else
    let intent := (st.intents.lookup d.recipientHash).getD (backCreateIntent d.recipientHash)
    (some intent,
     { intents :=
         match st.intents.lookup d.recipientHash with
         | some _ => st.intents
         | none => (d.recipientHash, intent) :: st.intents,
       claimed := d.txid :: st.claimed })

/-- Modelled from the spec: one relayer pass over a confirmed deposit
(§4.4 steps b–e): claim, and only on a successful claim execute
`mint_p2idh`; the mint log records the txid minted for. -/
def relayerProcessDeposit (st : BridgeStore) (mints : List (List Char × ℕ))
    (d : ConfirmedDeposit) : BridgeStore × List (List Char × ℕ) :=
  match claim_deposit st d with
  | (some _, st') => (st', mints ++ [(d.txid, d.amountBase)])
  | (none, st') => (st', mints)

/-! # Theorems -/

/-- Claim C1: the claim says the memo handed to the send endpoint equals
the recipient hash from the deposit-hash facade whenever an account id and
secret are present.  Evaluating the bridge page's memo prop and the send
modal's request body at such an input shows the memo is instead the
account id, a pipe, and the `0x`-prefixed secret, and differs from the
recipient hash. -/
theorem deposit_memo_is_account_pipe_secret :
    (ZcashSendModal.handleSendBody
        "utest1s7vrs7ycxvpu379zvtxt0fnc0efseur2f8g2s8puqls7nk45l6p7wvglu3rph9us9qz".data
        (BridgePage.memoProp "0xabcdef0123456789abcdef01234567".data
          "a1b2c3d4e5f6a7b8c9d0a1b2c3d4e5f6a7b8c9d0a1b2c3d4e5f6a7b8c9d0a1b2".data
          "00112233445566778899aabbccddeeff00112233445566778899aabbccddeeff".data
          none)
        "0.3".data).memo
      = "0xabcdef0123456789abcdef01234567|0xa1b2c3d4e5f6a7b8c9d0a1b2c3d4e5f6a7b8c9d0a1b2c3d4e5f6a7b8c9d0a1b2".data
    ∧ (ZcashSendModal.handleSendBody
        "utest1s7vrs7ycxvpu379zvtxt0fnc0efseur2f8g2s8puqls7nk45l6p7wvglu3rph9us9qz".data
        (BridgePage.memoProp "0xabcdef0123456789abcdef01234567".data
          "a1b2c3d4e5f6a7b8c9d0a1b2c3d4e5f6a7b8c9d0a1b2c3d4e5f6a7b8c9d0a1b2".data
          "00112233445566778899aabbccddeeff00112233445566778899aabbccddeeff".data
          none)
        "0.3".data).memo
      ≠ "00112233445566778899aabbccddeeff00112233445566778899aabbccddeeff".data := by
  decide

/-- Claim C2: the claim says the secret is never embedded in the Zcash
memo.  Evaluating the memo prop on a deposit flow with an account id and
secret present shows the memo carries the secret verbatim after the
`|0x` separator. -/
theorem deposit_memo_embeds_secret :
    (ZcashSendModal.handleSendBody
        "utest1pool".data
        (BridgePage.memoProp "0123456789abcdef0123456789abcd".data
          "beefbeefbeefbeefbeefbeefbeefbeefbeefbeefbeefbeefbeefbeefbeefbeef".data
          "ffeeddccbbaa99887766554433221100ffeeddccbbaa99887766554433221100".data
          none)
        "0.5".data).memo
      = "0123456789abcdef0123456789abcd|0x".data ++
          "beefbeefbeefbeefbeefbeefbeefbeefbeefbeefbeefbeefbeefbeefbeefbeef".data
    ∧ containsSub
        "beefbeefbeefbeefbeefbeefbeefbeefbeefbeefbeefbeefbeefbeefbeefbeef".data
        (ZcashSendModal.handleSendBody
          "utest1pool".data
          (BridgePage.memoProp "0123456789abcdef0123456789abcd".data
            "beefbeefbeefbeefbeefbeefbeefbeefbeefbeefbeefbeefbeefbeefbeefbeef".data
            "ffeeddccbbaa99887766554433221100ffeeddccbbaa99887766554433221100".data
            none)
          "0.5".data).memo = true := by
  constructor
  · decide
  · decide

set_option maxRecDepth 100000 in
/-- Claim C3: the claim says the value handed to the CLI's `--value` flag
is the user amount converted to base units exactly once.  For a wallet
page send of `1` TAZ, the page converts to `100000000` zatoshis and
`sendTransaction` converts again, so the CLI receives
`10000000000000000` — the amount scaled by `10^16`. -/
theorem wallet_send_value_double_scaled :
    walletPageSendAmount "1".data = some "100000000".data
    ∧ sendTransactionArgs "wallet/personal_wallet".data "key.txt".data
        "utest1pooladdr".data (sendRouteCLIAmount "100000000".data)
        (some "00112233445566778899aabbccddeeff00112233445566778899aabbccddeeff".data) none
      = some
        ["wallet".data, "-w".data, "wallet/personal_wallet".data, "send".data,
         "--identity".data, "key.txt".data,
         "--address".data, "utest1pooladdr".data,
         "--value".data, "10000000000000000".data,
         "--target-note-count".data, "1".data,
         "-s".data, "zecrocks".data,
         "--memo".data,
         "00112233445566778899aabbccddeeff00112233445566778899aabbccddeeff".data]
    ∧ "10000000000000000".data ≠ "100000000".data := by
  refine ⟨by decide, by decide, by decide⟩

set_option maxRecDepth 100000 in
/-- Claim C4 counterexample: `zecToZatoshis` (and the withdrawal
conversion) on the 2-fractional-digit amount `0.29` returns `28999999`,
not `0.29 × 10^8 = 29000000`: the double multiplication rounds just below
the exact product. -/
theorem zecToZatoshis_inexact_at_029 :
    zecToZatoshis "0.29".data = some "28999999".data
    ∧ handleWithdrawAmountBase "0.29".data = some 28999999
    ∧ ((28999999 : ℚ) ≠ (29 / 100) * 100000000) := by
  refine ⟨by decide, by decide, by norm_num⟩

/-- Claim C5 counterexample: the 30-hex-character account id accepted by
the current `validateAccountId` is rejected by the earlier revision (which
demands 64), so the acceptance condition is not the same in every
revision. -/
theorem validateAccountId_revisions_disagree :
    BridgePage.validateAccountId "0123456789abcdef0123456789abcd".data = []
    ∧ BridgePageOld.validateAccountId "0123456789abcdef0123456789abcd".data ≠ [] := by
  decide

/-- Claim C7 counterexample: when the CLI fails, the send route's error
body has no `success` field at all (unlike balance and transactions), so
the response does not contain `success:false`. -/
theorem send_route_error_body_lacks_success :
    (sendRoute "a".data "1".data
        (.ok { stdout := [], stderr := "boom".data, success := false,
               txid := none, error := some "Command execution failed".data })).status = 500
    ∧ ((sendRoute "a".data "1".data
        (.ok { stdout := [], stderr := "boom".data, success := false,
               txid := none, error := some "Command execution failed".data })).body.lookup
          "success".data).isNone = true
    ∧ ((sendRoute "a".data "1".data
        (.ok { stdout := [], stderr := "boom".data, success := false,
               txid := none, error := some "Command execution failed".data })).body.lookup
          "error".data).isSome = true := by
  refine ⟨by decide, by decide, by decide⟩

/-- Claim C9 counterexample: a stdout of 65 `a`s contains a 64-character
hexadecimal substring, yet the regex finds no txid, because `\b` demands
word boundaries around the 64 characters. -/
theorem execZcash_txid_misses_plain_substring :
    firstTxidToken (List.replicate 65 'a') = none
    ∧ firstHex64Substring (List.replicate 65 'a') = some (List.replicate 64 'a')
    ∧ (execZcashCommand ["wallet".data] (.ok (List.replicate 65 'a', []))).txid = none := by
  refine ⟨by decide, by decide, by decide⟩

/-- Claim C8: `claim_deposit` is idempotent — for a not-yet-claimed source
txid the first call returns `some`, the second returns `none`, and running
the relayer pass twice over the same deposit executes the mint exactly
once for that txid. -/
theorem claim_deposit_idempotent (st : BridgeStore) (d : ConfirmedDeposit)
    (ms : List (List Char × ℕ))
    (hnew : st.claimed.contains d.txid = false)
    (hm : (ms.map Prod.fst).count d.txid = 0) :
    (∃ i, (claim_deposit st d).1 = some i)
    ∧ (claim_deposit (claim_deposit st d).2 d).1 = none
    ∧ (((relayerProcessDeposit
          (relayerProcessDeposit st ms d).1 (relayerProcessDeposit st ms d).2 d).2).map
         Prod.fst).count d.txid = 1 := by
  have hstep : claim_deposit st d =
      ((some ((st.intents.lookup d.recipientHash).getD (backCreateIntent d.recipientHash))),
       { intents :=
           match st.intents.lookup d.recipientHash with
           | some _ => st.intents
           | none => (d.recipientHash,
               (st.intents.lookup d.recipientHash).getD (backCreateIntent d.recipientHash)) ::
                 st.intents,
         claimed := d.txid :: st.claimed }) := by
    unfold claim_deposit
    rw [if_neg (by simpa using hnew)]
  have hsecond : ∀ st' : BridgeStore, st'.claimed = d.txid :: st.claimed →
      (claim_deposit st' d).1 = none := by
    intro st' h
    unfold claim_deposit
    rw [if_pos (by simp [h])]
  refine ⟨⟨_, by rw [hstep]⟩, hsecond _ (by rw [hstep]), ?_⟩
  have hproc1 : relayerProcessDeposit st ms d =
      ((claim_deposit st d).2, ms ++ [(d.txid, d.amountBase)]) := by
    unfold relayerProcessDeposit
    rw [hstep]
  have hproc2 : relayerProcessDeposit (claim_deposit st d).2 (ms ++ [(d.txid, d.amountBase)]) d
      = ((claim_deposit (claim_deposit st d).2 d).2, ms ++ [(d.txid, d.amountBase)]) := by
    have h2 := hsecond (claim_deposit st d).2 (by rw [hstep])
    unfold relayerProcessDeposit
    revert h2
    rcases claim_deposit (claim_deposit st d).2 d with ⟨r, st2⟩
    rintro rfl
    rfl
  rw [hproc1]
  simp only [hproc2, List.map_append, List.count_append]
  simp [hm, List.count_singleton]

/-- Witness for `claim_deposit_idempotent` at an empty store and a
concrete deposit. -/
theorem claim_deposit_idempotent_witness :
    (∃ i, (claim_deposit ⟨[], []⟩ ⟨"ab12".data, "cd34".data, 30000000⟩).1 = some i)
    ∧ (claim_deposit (claim_deposit ⟨[], []⟩ ⟨"ab12".data, "cd34".data, 30000000⟩).2
        ⟨"ab12".data, "cd34".data, 30000000⟩).1 = none
    ∧ (((relayerProcessDeposit
          (relayerProcessDeposit ⟨[], []⟩ [] ⟨"ab12".data, "cd34".data, 30000000⟩).1
          (relayerProcessDeposit ⟨[], []⟩ [] ⟨"ab12".data, "cd34".data, 30000000⟩).2
          ⟨"ab12".data, "cd34".data, 30000000⟩).2).map Prod.fst).count "ab12".data = 1 :=
  claim_deposit_idempotent ⟨[], []⟩ ⟨"ab12".data, "cd34".data, 30000000⟩ []
    (by decide) (by decide)

/-- Claim C7 amended: on a CLI failure every wallet facade route responds
with status 500 and a JSON body carrying an error string, and the
`try`/`catch` wrapper makes every handler total (the `.error` case below);
the balance and transactions routes additionally put `success:false` in
the body, while the send route's error bodies carry no `success` field. -/
theorem wallet_routes_cli_failure_response
    (result : ZcashCommandResult) (address amount msg : List Char)
    (hfail : result.success = false) (ha : address ≠ []) (hb : amount ≠ []) :
    ((balanceRoute (.ok result)).status = 500
      ∧ (balanceRoute (.ok result)).body.lookup "success".data = some (.bool false)
      ∧ (balanceRoute (.ok result)).body.lookup "error".data
          = some (.str (jsOr result.error "Failed to get balance".data)))
    ∧ ((transactionsRoute (.ok result)).status = 500
      ∧ (transactionsRoute (.ok result)).body.lookup "success".data = some (.bool false)
      ∧ (transactionsRoute (.ok result)).body.lookup "error".data
          = some (.str (jsOr result.error "Failed to list transactions".data)))
    ∧ ((sendRoute address amount (.ok result)).status = 500
      ∧ (sendRoute address amount (.ok result)).body.lookup "error".data
          = some (.str (jsOr result.error "Failed to send transaction".data))
      ∧ (sendRoute address amount (.ok result)).body.lookup "success".data = none)
    ∧ ((balanceRoute (.error msg)).status = 500
      ∧ (transactionsRoute (.error msg)).status = 500
      ∧ (sendRoute address amount (.error msg)).status = 500) := by
  have hsend : ¬(address = [] ∨ amount = []) := by
    rintro (h | h)
    · exact ha h
    · exact hb h
  simp only [balanceRoute, transactionsRoute, sendRoute, hfail, Bool.not_false, if_neg hsend]
  refine ⟨⟨?_, ?_, ?_⟩, ⟨?_, ?_, ?_⟩, ⟨?_, ?_, ?_⟩, ?_, ?_, ?_⟩ <;> first | rfl | trivial

/-- Witness for `wallet_routes_cli_failure_response` at a concrete failed
CLI result. -/
theorem wallet_routes_cli_failure_response_witness :
    ((balanceRoute (.ok ⟨[], "io error".data, false, none, some "spawn failed".data⟩)).status = 500
      ∧ (balanceRoute (.ok ⟨[], "io error".data, false, none,
            some "spawn failed".data⟩)).body.lookup "success".data = some (.bool false)
      ∧ (balanceRoute (.ok ⟨[], "io error".data, false, none,
            some "spawn failed".data⟩)).body.lookup "error".data
          = some (.str (jsOr (some "spawn failed".data) "Failed to get balance".data)))
    ∧ ((transactionsRoute (.ok ⟨[], "io error".data, false, none,
            some "spawn failed".data⟩)).status = 500
      ∧ (transactionsRoute (.ok ⟨[], "io error".data, false, none,
            some "spawn failed".data⟩)).body.lookup "success".data = some (.bool false)
      ∧ (transactionsRoute (.ok ⟨[], "io error".data, false, none,
            some "spawn failed".data⟩)).body.lookup "error".data
          = some (.str (jsOr (some "spawn failed".data) "Failed to list transactions".data)))
    ∧ ((sendRoute "utest1dest".data "0.2".data
          (.ok ⟨[], "io error".data, false, none, some "spawn failed".data⟩)).status = 500
      ∧ (sendRoute "utest1dest".data "0.2".data
          (.ok ⟨[], "io error".data, false, none,
            some "spawn failed".data⟩)).body.lookup "error".data
          = some (.str (jsOr (some "spawn failed".data) "Failed to send transaction".data))
      ∧ (sendRoute "utest1dest".data "0.2".data
          (.ok ⟨[], "io error".data, false, none,
            some "spawn failed".data⟩)).body.lookup "success".data = none)
    ∧ ((balanceRoute (.error "oops".data)).status = 500
      ∧ (transactionsRoute (.error "oops".data)).status = 500
      ∧ (sendRoute "utest1dest".data "0.2".data (.error "oops".data)).status = 500) :=
  wallet_routes_cli_failure_response
    ⟨[], "io error".data, false, none, some "spawn failed".data⟩
    "utest1dest".data "0.2".data "oops".data rfl (by decide) (by decide)

/-- Claim C5 amended: for inputs that do not take the bech32 branch, the
current `validateAccountId` accepts exactly the hex strings that are 30
characters after the optional `0x`, while the earlier revision demanded 64
characters; the two revisions do not share one acceptance condition. -/
theorem validateAccountId_hex_acceptance (s : List Char)
    (h1 : startsWithL "mtst".data (trimL s) = false)
    (h2 : startsWithL "mm".data (trimL s) = false) :
    (BridgePage.validateAccountId s = [] ↔
      (strip0x (trimL s)).all isHexChar = true ∧ (strip0x (trimL s)).length = 30)
    ∧ (BridgePageOld.validateAccountId s = [] ↔
      (strip0x (trimL s)).all isHexChar = true ∧ (strip0x (trimL s)).length = 64) := by
  have hbech : (startsWithL "mtst".data (trimL s) || startsWithL "mm".data (trimL s)) = false := by
    rw [h1, h2]
    rfl
  have key : ∀ (n : ℕ) (msg : List Char), 0 < n → msg ≠ [] →
      ((if trimL s = [] then "Account ID cannot be empty".data
        else if startsWithL "mtst".data (trimL s) || startsWithL "mm".data (trimL s) then
          if (trimL s).length < 10 then "Invalid bech32 format (too short)".data
          else if !(trimL s).all isBech32Char then
            "Invalid bech32 format (invalid characters)".data
          else []
        else
          if !(!(strip0x (trimL s)).isEmpty && (strip0x (trimL s)).all isHexChar) then
            "Invalid hex format".data
          else if (strip0x (trimL s)).length ≠ n then msg
          else []) = []
        ↔ (strip0x (trimL s)).all isHexChar = true ∧ (strip0x (trimL s)).length = n) := by
    intro n msg hn hmsg
    by_cases he : trimL s = []
    · rw [if_pos he]
      constructor
      · intro h
        exact absurd h (by decide)
      · rintro ⟨_, hlen⟩
        rw [he] at hlen
        simp [strip0x, startsWithL] at hlen
        omega
    · rw [if_neg he, hbech]
      simp only [Bool.false_eq_true, if_false]
      by_cases hre : (!(strip0x (trimL s)).isEmpty && (strip0x (trimL s)).all isHexChar) = true
      · rw [hre]
        simp only [Bool.not_true, Bool.false_eq_true, if_false]
        rcases Bool.and_eq_true .. |>.mp hre with ⟨-, hall⟩
        by_cases hlen : (strip0x (trimL s)).length = n
        · rw [if_neg (by omega)]
          exact ⟨fun _ => ⟨hall, hlen⟩, fun _ => rfl⟩
        · rw [if_pos hlen]
          exact ⟨fun h => absurd h hmsg, fun ⟨_, h⟩ => absurd h hlen⟩
      · rw [Bool.not_eq_true] at hre
        rw [hre]
        simp only [Bool.not_false, if_true]
        constructor
        · intro h
          exact absurd h (by decide)
        · rintro ⟨hall, hlen⟩
          rcases Bool.and_eq_false_iff.mp hre with hre2 | hre2
          · have hemp : (strip0x (trimL s)).isEmpty = true := by
              revert hre2
              cases (strip0x (trimL s)).isEmpty <;> simp
            rw [List.isEmpty_iff] at hemp
            rw [hemp] at hlen
            simp at hlen
            omega
          · exact absurd hall (by simp [hre2])
  exact ⟨key 30 "Hex account ID must be 30 characters (15 bytes)".data (by norm_num) (by decide),
         key 64 "Hex account ID must be 64 characters (32 bytes)".data (by norm_num) (by decide)⟩

/-- Witness for `validateAccountId_hex_acceptance` at a `0x`-prefixed
30-hex-character account id. -/
theorem validateAccountId_hex_acceptance_witness :
    (BridgePage.validateAccountId "0x00aa11bb22cc33dd44ee55ff667788".data = [] ↔
      (strip0x (trimL "0x00aa11bb22cc33dd44ee55ff667788".data)).all isHexChar = true
        ∧ (strip0x (trimL "0x00aa11bb22cc33dd44ee55ff667788".data)).length = 30)
    ∧ (BridgePageOld.validateAccountId "0x00aa11bb22cc33dd44ee55ff667788".data = [] ↔
      (strip0x (trimL "0x00aa11bb22cc33dd44ee55ff667788".data)).all isHexChar = true
        ∧ (strip0x (trimL "0x00aa11bb22cc33dd44ee55ff667788".data)).length = 64) :=
  validateAccountId_hex_acceptance "0x00aa11bb22cc33dd44ee55ff667788".data
    (by decide) (by decide)

set_option maxRecDepth 40000 in
/-- Each byte below 256 renders as exactly two lowercase hex characters. -/
theorem byteToHex_spec : ∀ b : ℕ, b < 256 →
    (byteToHex b).length = 2 ∧ (byteToHex b).all isLowerHexChar = true := by
  decide

/-- The joined secret hex string: two lowercase hex characters per byte. -/
theorem generateSecretHex_spec : ∀ bytes : List ℕ, (∀ b ∈ bytes, b < 256) →
    (generateSecretHex bytes).length = 2 * bytes.length
    ∧ (generateSecretHex bytes).all isLowerHexChar = true := by
  intro bytes
  induction bytes with
  | nil => intro _; exact ⟨rfl, rfl⟩
  | cons b bs ih =>
    intro h
    have hb := byteToHex_spec b (h b (List.mem_cons_self b bs))
    have hbs := ih (fun x hx => h x (List.mem_cons_of_mem b hx))
    unfold generateSecretHex at *
    rw [List.map_cons, List.flatten_cons]
    constructor
    · rw [List.length_append, hb.1, hbs.1, List.length_cons]
      ring
    · rw [List.all_append, hb.2, hbs.2]
      rfl

/-- A lowercase hex character is a hex character. -/
theorem isLowerHexChar_isHexChar (c : Char) (h : isLowerHexChar c = true) :
    isHexChar c = true := by
  unfold isLowerHexChar at h
  unfold isHexChar
  rcases Bool.or_eq_true .. |>.mp h with h' | h' <;> simp [h']

/-- Every hex character has a hex value. -/
theorem hexVal_isSome (c : Char) (h : isHexChar c = true) : (hexVal c).isSome = true := by
  unfold isHexChar isDigitChar at h
  unfold hexVal
  split_ifs <;> simp_all <;> omega

/-- A hex string of even length decodes to half as many bytes. -/
theorem decodeHexL_length : ∀ l : List Char, l.all isHexChar = true → l.length % 2 = 0 →
    ∃ bs, decodeHexL l = some bs ∧ bs.length = l.length / 2
  | [] => fun _ _ => ⟨[], rfl, rfl⟩
  | [_] => fun _ h2 => by simp at h2
  | c1 :: c2 :: rest => fun h1 h2 => by
    rw [List.all_cons, Bool.and_eq_true, List.all_cons, Bool.and_eq_true] at h1
    have hc1 := h1.1
    have hc2 := h1.2.1
    have hrest := h1.2.2
    have h2' : rest.length % 2 = 0 := by
      simp only [List.length_cons] at h2
      omega
    obtain ⟨v1, hv1⟩ := Option.isSome_iff_exists.mp (hexVal_isSome c1 hc1)
    obtain ⟨v2, hv2⟩ := Option.isSome_iff_exists.mp (hexVal_isSome c2 hc2)
    obtain ⟨bs, hbs, hlen⟩ := decodeHexL_length rest hrest h2'
    refine ⟨(16 * v1 + v2) :: bs, ?_, ?_⟩
    · unfold decodeHexL
      rw [hv1, hv2, hbs]
    · simp only [List.length_cons, hlen]
      omega

/-- A nonempty string of lowercase hex characters does not start with
`0x`. -/
theorem lower_hex_not_0x (l : List Char) (hall : l.all isLowerHexChar = true) :
    startsWithL "0x".data l = false := by
  match l with
  | [] => rfl
  | [c] =>
    show startsWithL ['0', 'x'] [c] = false
    simp [startsWithL]
  | a :: b :: t =>
    rw [List.all_cons, Bool.and_eq_true, List.all_cons, Bool.and_eq_true] at hall
    have hb : b ≠ 'x' := by
      intro hx
      rw [hx] at hall
      exact absurd hall.2.1 (by decide)
    show startsWithL ['0', 'x'] (a :: b :: t) = false
    simp only [startsWithL]
    rw [decide_eq_false (show ¬('x' = b) from fun h => hb h.symm)]
    simp

/-- `startsWithL p (p ++ l)` always holds. -/
theorem startsWithL_append_self : ∀ (p l : List Char), startsWithL p (p ++ l) = true
  | [], _ => rfl
  | c :: p, l => by
    unfold startsWithL
    rw [List.cons_append]
    simp [startsWithL_append_self p l]

/-- Claim C6: a UI-generated secret (32 random bytes rendered with
`toString(16).padStart(2,'0')` and joined) is a 64-character lowercase hex
string, and the `0x`-prefixed form `generateHash` sends to
`/deposit/hash` decodes to exactly 32 bytes, so the derivation's
`MalformedSecret` branch cannot fire on it. -/
theorem generateSecret_hex_well_formed (bytes : List ℕ)
    (hlen : bytes.length = 32) (hb : ∀ b ∈ bytes, b < 256) :
    (generateSecretHex bytes).length = 64
    ∧ (generateSecretHex bytes).all isLowerHexChar = true
    ∧ secretNotMalformed (secretWith0x (generateSecretHex bytes)) = true := by
  obtain ⟨hl, hall⟩ := generateSecretHex_spec bytes hb
  rw [hlen] at hl
  refine ⟨hl, hall, ?_⟩
  have hnot0x : startsWithL "0x".data (generateSecretHex bytes) = false :=
    lower_hex_not_0x _ hall
  have hpre : secretWith0x (generateSecretHex bytes) = "0x".data ++ generateSecretHex bytes := by
    unfold secretWith0x
    rw [hnot0x]
    rfl
  have hstrip : strip0x ("0x".data ++ generateSecretHex bytes) = generateSecretHex bytes := by
    unfold strip0x
    rw [startsWithL_append_self, if_pos rfl]
    rfl
  have hhex : (generateSecretHex bytes).all isHexChar = true := by
    rw [List.all_eq_true] at hall ⊢
    exact fun c hc => isLowerHexChar_isHexChar c (hall c hc)
  obtain ⟨bs, hbs, hbl⟩ := decodeHexL_length (generateSecretHex bytes) hhex (by rw [hl])
  have hbl32 : bs.length = 32 := by
    rw [hbl, hl]
  unfold secretNotMalformed
  rw [hpre, hstrip]
  simp [hbs, hbl32]

/-- Witness for `generateSecret_hex_well_formed` at a concrete list of 32
byte values. -/
theorem generateSecret_hex_well_formed_witness :
    (generateSecretHex (List.range 32 |>.map (· * 8))).length = 64
    ∧ (generateSecretHex (List.range 32 |>.map (· * 8))).all isLowerHexChar = true
    ∧ secretNotMalformed (secretWith0x (generateSecretHex (List.range 32 |>.map (· * 8)))) = true :=
  generateSecret_hex_well_formed (List.range 32 |>.map (· * 8)) (by decide) (by decide)

/-- `lastOrElse` over a freshly consed character. -/
theorem lastOrElse_cons (c : Char) (pre : List Char) (prev : Option Char) :
    lastOrElse (c :: pre) prev = lastOrElse pre (some c) := by
  unfold lastOrElse
  match pre with
  | [] => rfl
  | p :: ps =>
    rw [List.getLast?_cons_cons]
    cases hg : (p :: ps).getLast? with
    | some d => rfl
    | none => simp at hg

/-- Soundness of the txid scan: a returned token is 64 hex characters cut
out of the input at a position flanked by `\b` boundaries. -/
theorem scanTxid_sound : ∀ (l : List Char) (prev : Option Char) (t : List Char),
    scanTxid prev l = some t →
    t.length = 64 ∧ t.all isHexChar = true ∧
    ∃ pre post, l = pre ++ t ++ post
      ∧ boundaryBeforeOk (lastOrElse pre prev) = true
      ∧ boundaryAfterOk post = true
  | [], prev, t => by
    intro h
    exact absurd h (by simp [scanTxid, hex64At, boundaryAfterOk])
  | c :: rest, prev, t => by
    intro h
    unfold scanTxid at h
    by_cases hcond : (boundaryBeforeOk prev && hex64At (c :: rest)) = true
    · rw [if_pos hcond] at h
      have hb := (Bool.and_eq_true .. |>.mp hcond).1
      have hx := (Bool.and_eq_true .. |>.mp hcond).2
      unfold hex64At at hx
      rw [Bool.and_eq_true, Bool.and_eq_true] at hx
      obtain ⟨⟨hlen, hhex⟩, hafter⟩ := hx
      have ht : t = (c :: rest).take 64 := by
        injection h with h'
        exact h'.symm
      subst ht
      refine ⟨by simpa using hlen, hhex, [], (c :: rest).drop 64, ?_, ?_, hafter⟩
      · rw [List.nil_append, List.take_append_drop]
      · exact hb
    · rw [if_neg hcond] at h
      obtain ⟨hlen, hhex, pre, post, hsplit, hbefore, hafter⟩ :=
        scanTxid_sound rest (some c) t h
      refine ⟨hlen, hhex, c :: pre, post, ?_, ?_, hafter⟩
      · rw [hsplit]
        rfl
      · rw [lastOrElse_cons]
        exact hbefore

/-- Claim C9 amended: on process success `execZcashCommand` reports
`success:true` and, independently of the argument list, a txid equal to
the regex capture from stdout; any captured txid is a 64-character hex
token cut from stdout with non-word characters (or the string ends) on
both sides. -/
theorem execZcash_txid_boundary_token (args args2 : List (List Char))
    (out err : List Char) (t : List Char)
    (h : firstTxidToken out = some t) :
    (execZcashCommand args (.ok (out, err))).success = true
    ∧ (execZcashCommand args (.ok (out, err))).txid = some t
    ∧ execZcashCommand args (.ok (out, err)) = execZcashCommand args2 (.ok (out, err))
    ∧ t.length = 64 ∧ t.all isHexChar = true
    ∧ ∃ pre post, out = pre ++ t ++ post
        ∧ boundaryBeforeOk (lastOrElse pre none) = true
        ∧ boundaryAfterOk post = true := by
  obtain ⟨hlen, hhex, pre, post, hsplit, hbefore, hafter⟩ := scanTxid_sound out none t h
  exact ⟨rfl, by simp [execZcashCommand, h], rfl, hlen, hhex, pre, post, hsplit, hbefore, hafter⟩

/-- Witness for `execZcash_txid_boundary_token` at a concrete stdout with
a boundary-delimited 64-hex token. -/
theorem execZcash_txid_boundary_token_witness :
    (execZcashCommand ["wallet".data, "send".data]
        (.ok ("txid: ".data ++ List.replicate 64 'e' ++ "\n".data, []))).success = true
    ∧ (execZcashCommand ["wallet".data, "send".data]
        (.ok ("txid: ".data ++ List.replicate 64 'e' ++ "\n".data, []))).txid
      = some (List.replicate 64 'e')
    ∧ execZcashCommand ["wallet".data, "send".data]
        (.ok ("txid: ".data ++ List.replicate 64 'e' ++ "\n".data, []))
      = execZcashCommand ["wallet".data, "balance".data]
        (.ok ("txid: ".data ++ List.replicate 64 'e' ++ "\n".data, []))
    ∧ (List.replicate 64 'e').length = 64
    ∧ (List.replicate 64 'e').all isHexChar = true
    ∧ ∃ pre post, "txid: ".data ++ List.replicate 64 'e' ++ "\n".data
        = pre ++ List.replicate 64 'e' ++ post
        ∧ boundaryBeforeOk (lastOrElse pre none) = true
        ∧ boundaryAfterOk post = true :=
  execZcash_txid_boundary_token ["wallet".data, "send".data] ["wallet".data, "balance".data]
    ("txid: ".data ++ List.replicate 64 'e' ++ "\n".data) [] (List.replicate 64 'e')
    (by decide)

/-- `updateMined` never touches the txid. -/
theorem updateMined_txid (t : List Char) (tx : ParsedTransaction) :
    (updateMined t tx).txid = tx.txid := by
  unfold updateMined
  repeat' split
  all_goals rfl

/-- `updateUnmined` never touches the txid. -/
theorem updateUnmined_txid (t : List Char) (tx : ParsedTransaction) :
    (updateUnmined t tx).txid = tx.txid := by
  unfold updateUnmined
  repeat' split
  all_goals rfl

/-- `updateAmount` never touches the txid. -/
theorem updateAmount_txid (t : List Char) (tx : ParsedTransaction) :
    (updateAmount t tx).txid = tx.txid := by
  unfold updateAmount
  repeat' split
  all_goals rfl

/-- `updateFee` never touches the txid. -/
theorem updateFee_txid (t : List Char) (tx : ParsedTransaction) :
    (updateFee t tx).txid = tx.txid := by
  unfold updateFee
  repeat' split
  all_goals rfl

/-- `updateNotes` never touches the txid. -/
theorem updateNotes_txid (t : List Char) (tx : ParsedTransaction) :
    (updateNotes t tx).txid = tx.txid := by
  unfold updateNotes
  repeat' split
  all_goals rfl

/-- The transaction-level field updates never touch the txid. -/
theorem updateTxLine_txid (t : List Char) (tx : ParsedTransaction) :
    (updateTxLine t tx).txid = tx.txid := by
  unfold updateTxLine
  rw [updateNotes_txid, updateFee_txid, updateAmount_txid, updateUnmined_txid,
    updateMined_txid]

/-- The txids of the flushed result list: the accumulated transactions
followed by the current one, if any. -/
theorem pushCurrent_map (st : ParseState) :
    (pushCurrent st).map ParsedTransaction.txid
      = st.transactions.map ParsedTransaction.txid
        ++ (match st.currentTx with | some tx => [tx.txid] | none => []) := by
  unfold pushCurrent
  cases st.currentTx with
  | none => simp
  | some tx => cases st.currentOutput <;> simp

/-- One loop iteration appends exactly the txid lines it consumes. -/
theorem stepLine_txids (st : ParseState) (line : List Char) :
    (pushCurrent (stepLine st line)).map ParsedTransaction.txid
      = (pushCurrent st).map ParsedTransaction.txid
        ++ (if isTxidLine (trimL line) = true then [trimL line] else []) := by
  unfold stepLine
  dsimp only
  by_cases h : isTxidLine (trimL line) = true
  · rw [if_pos h, if_pos h, pushCurrent_map]
  · rw [if_neg h, if_neg h, List.append_nil]
    cases hc : st.currentTx with
    | none => rfl
    | some tx =>
      dsimp only
      rw [pushCurrent_map, pushCurrent_map, hc]
      split
      · cases st.currentOutput <;> simp [updateTxLine_txid]
      · simp [updateTxLine_txid]

/-- Folding the loop over any line list appends exactly the trimmed txid
lines, in order. -/
theorem foldl_stepLine_txids : ∀ (lines : List (List Char)) (st : ParseState),
    (pushCurrent (lines.foldl stepLine st)).map ParsedTransaction.txid
      = (pushCurrent st).map ParsedTransaction.txid
        ++ (lines.map trimL).filter isTxidLine
  | [], st => by simp
  | line :: rest, st => by
    rw [List.foldl_cons, foldl_stepLine_txids rest (stepLine st line), stepLine_txids]
    rw [List.map_cons, List.filter_cons]
    by_cases h : isTxidLine (trimL line) = true
    · rw [if_pos h, if_pos h, List.append_assoc]
      rfl
    · rw [if_neg h, if_neg (by simpa using h), List.append_nil]

/-- Claim C10: `parseTransactions` is a total function whose records'
txids are exactly the trimmed input lines matching `/^[a-f0-9]{64}$/i`, in
the order those lines appear. -/
theorem parseTransactions_txids_in_order (output : List Char) :
    (parseTransactions output).map ParsedTransaction.txid
      = ((splitOnChar '\n' output).map trimL).filter isTxidLine := by
  unfold parseTransactions
  rw [foldl_stepLine_txids]
  rfl

/-- The fuelled base-2 logarithm brackets its argument once the fuel
covers it. -/
theorem log2fuel_spec : ∀ (fuel n : ℕ), 1 ≤ n → n ≤ fuel →
    2 ^ log2fuel fuel n ≤ n ∧ n < 2 ^ (log2fuel fuel n + 1)
  | 0, n => by
    intro h1 h2
    omega
  | fuel + 1, n => by
    intro h1 h2
    unfold log2fuel
    by_cases hn : n < 2
    · rw [if_pos hn]
      constructor
      · simpa using h1
      · simpa using hn
    · rw [if_neg hn]
      obtain ⟨ha, hb⟩ := log2fuel_spec fuel (n / 2) (by omega) (by omega)
      constructor
      · rw [pow_succ]
        omega
      · rw [pow_succ, pow_succ]
        rw [pow_succ] at hb
        omega

/-- `natLog2` brackets every positive natural number. -/
theorem natLog2_spec (n : ℕ) (h : 1 ≤ n) :
    2 ^ natLog2 n ≤ n ∧ n < 2 ^ (natLog2 n + 1) :=
  log2fuel_spec n n h le_rfl

/-- `fpow2` always has a positive denominator. -/
theorem fpow2_den_pos (k : ℤ) : 0 < (fpow2 k).den := by
  unfold fpow2
  split
  · norm_num
  · exact pow_pos (by norm_num) _

/-- `fpow2` denotes the integer power of two. -/
theorem fpow2_toRat (k : ℤ) : (fpow2 k).toRat = (2 : ℚ) ^ k := by
  unfold fpow2 Frac.toRat
  split
  next h =>
    push_cast
    rw [← zpow_natCast (2 : ℚ) k.toNat, Int.toNat_of_nonneg h]
    simp
  next h =>
    push_cast
    rw [← zpow_natCast (2 : ℚ) (-k).toNat, Int.toNat_of_nonneg (by omega)]
    rw [zpow_neg]
    simp

/-- Cross-multiplied comparison agrees with the rational order (`≤`). -/
theorem frac_le_iff (a b : Frac) (hda : 0 < a.den) (hdb : 0 < b.den) :
    (a.num * (b.den : ℤ) ≤ b.num * (a.den : ℤ)) ↔ a.toRat ≤ b.toRat := by
  unfold Frac.toRat
  rw [div_le_div_iff (by exact_mod_cast hda) (by exact_mod_cast hdb)]
  constructor <;> intro h <;> exact_mod_cast h

/-- Cross-multiplied comparison agrees with the rational order (`<`). -/
theorem frac_lt_iff (a b : Frac) (hda : 0 < a.den) (hdb : 0 < b.den) :
    (a.num * (b.den : ℤ) < b.num * (a.den : ℤ)) ↔ a.toRat < b.toRat := by
  unfold Frac.toRat
  rw [div_lt_div_iff (by exact_mod_cast hda) (by exact_mod_cast hdb)]
  constructor <;> intro h <;> exact_mod_cast h

/-- `findExp` finds the binade: `2 ^ e ≤ q < 2 ^ (e + 1)` for positive
fractions. -/
theorem findExp_bracket (q : Frac) (hn : 0 < q.num) (hd : 0 < q.den) :
    (2 : ℚ) ^ findExp q ≤ q.toRat ∧ q.toRat < (2 : ℚ) ^ (findExp q + 1) := by
  have hdq : (0 : ℚ) < (q.den : ℚ) := by exact_mod_cast hd
  have haq : ((q.num.toNat : ℤ) : ℚ) = (q.num : ℚ) := by
    rw [Int.toNat_of_nonneg hn.le]
  obtain ⟨hA1, hA2⟩ := natLog2_spec q.num.toNat (by omega)
  obtain ⟨hB1, hB2⟩ := natLog2_spec q.den hd
  set A := natLog2 q.num.toNat with hA
  set B := natLog2 q.den with hB
  have hub : q.toRat < (2 : ℚ) ^ ((A : ℤ) - (B : ℤ) + 1) := by
    unfold Frac.toRat
    rw [div_lt_iff hdq]
    have step1 : (q.num : ℚ) < (2 : ℚ) ^ ((A : ℤ) + 1) := by
      rw [← haq]
      have : ((q.num.toNat : ℚ)) < ((2 ^ (A + 1) : ℕ) : ℚ) := by exact_mod_cast hA2
      calc ((q.num.toNat : ℤ) : ℚ) = (q.num.toNat : ℚ) := by push_cast; ring
        _ < ((2 ^ (A + 1) : ℕ) : ℚ) := this
        _ = (2 : ℚ) ^ ((A : ℤ) + 1) := by
            push_cast
            rw [← zpow_natCast (2 : ℚ) (A + 1)]
            push_cast
            ring_nf
    have step2 : (2 : ℚ) ^ ((A : ℤ) + 1) ≤ (2 : ℚ) ^ ((A : ℤ) - (B : ℤ) + 1) * (q.den : ℚ) := by
      have h2B : ((2 : ℚ) ^ ((B : ℤ))) ≤ (q.den : ℚ) := by
        have : ((2 ^ B : ℕ) : ℚ) ≤ (q.den : ℚ) := by exact_mod_cast hB1
        calc (2 : ℚ) ^ ((B : ℤ)) = ((2 ^ B : ℕ) : ℚ) := by
              push_cast
              rw [← zpow_natCast (2 : ℚ) B]
          _ ≤ (q.den : ℚ) := this
      calc (2 : ℚ) ^ ((A : ℤ) + 1)
          = (2 : ℚ) ^ ((A : ℤ) - (B : ℤ) + 1) * (2 : ℚ) ^ ((B : ℤ)) := by
            rw [← zpow_add₀ (two_ne_zero)]
            ring_nf
        _ ≤ (2 : ℚ) ^ ((A : ℤ) - (B : ℤ) + 1) * (q.den : ℚ) := by
            have hpos : (0 : ℚ) < (2 : ℚ) ^ ((A : ℤ) - (B : ℤ) + 1) := by positivity
            nlinarith [h2B, hpos]
    linarith
  have hlb : (2 : ℚ) ^ ((A : ℤ) - (B : ℤ) - 1) < q.toRat := by
    unfold Frac.toRat
    rw [lt_div_iff hdq]
    have step1 : (2 : ℚ) ^ ((A : ℤ)) ≤ (q.num : ℚ) := by
      rw [← haq]
      have : ((2 ^ A : ℕ) : ℚ) ≤ ((q.num.toNat : ℕ) : ℚ) := by exact_mod_cast hA1
      calc (2 : ℚ) ^ ((A : ℤ)) = ((2 ^ A : ℕ) : ℚ) := by
            push_cast
            rw [← zpow_natCast (2 : ℚ) A]
        _ ≤ ((q.num.toNat : ℕ) : ℚ) := this
        _ = ((q.num.toNat : ℤ) : ℚ) := by push_cast; ring
    have step2 : (2 : ℚ) ^ ((A : ℤ) - (B : ℤ) - 1) * (q.den : ℚ) < (2 : ℚ) ^ ((A : ℤ)) := by
      have h2B : (q.den : ℚ) < ((2 : ℚ) ^ ((B : ℤ) + 1)) := by
        have : (q.den : ℚ) < ((2 ^ (B + 1) : ℕ) : ℚ) := by exact_mod_cast hB2
        calc (q.den : ℚ) < ((2 ^ (B + 1) : ℕ) : ℚ) := this
          _ = (2 : ℚ) ^ ((B : ℤ) + 1) := by
              push_cast
              rw [← zpow_natCast (2 : ℚ) (B + 1)]
              push_cast
              ring_nf
      have hpos : (0 : ℚ) < (2 : ℚ) ^ ((A : ℤ) - (B : ℤ) - 1) := by positivity
      calc (2 : ℚ) ^ ((A : ℤ) - (B : ℤ) - 1) * (q.den : ℚ)
          < (2 : ℚ) ^ ((A : ℤ) - (B : ℤ) - 1) * (2 : ℚ) ^ ((B : ℤ) + 1) := by
            nlinarith [h2B, hpos]
        _ = (2 : ℚ) ^ ((A : ℤ)) := by
            rw [← zpow_add₀ (two_ne_zero)]
            ring_nf
    linarith
  unfold findExp
  rw [← hA, ← hB]
  have hc1iff := frac_le_iff (fpow2 ((A : ℤ) - (B : ℤ) + 1)) q (fpow2_den_pos _) hd
  rw [fpow2_toRat] at hc1iff
  have hc2iff := frac_lt_iff q (fpow2 ((A : ℤ) - (B : ℤ))) hd (fpow2_den_pos _)
  rw [fpow2_toRat] at hc2iff
  rw [if_neg (by
    rw [hc1iff]
    exact not_le.mpr hub)]
  by_cases hc2 : q.num * ((fpow2 ((A : ℤ) - (B : ℤ))).den : ℤ)
      < (fpow2 ((A : ℤ) - (B : ℤ))).num * (q.den : ℤ)
  · rw [if_pos hc2]
    rw [hc2iff] at hc2
    refine ⟨hlb.le, ?_⟩
    have hexp : (A : ℤ) - (B : ℤ) - 1 + 1 = (A : ℤ) - (B : ℤ) := by ring
    rw [hexp]
    exact hc2
  · rw [if_neg hc2]
    rw [hc2iff] at hc2
    exact ⟨not_lt.mp hc2, hub⟩

/-- Rounding a fraction that already denotes an integer returns that
integer. -/
theorem frhe_exact (s : Frac) (v : ℤ) (hd : 0 < s.den) (hv : s.num = v * s.den) :
    frhe s = v := by
  have hf : s.num.ediv s.den = v := by
    rw [hv]
    exact Int.mul_ediv_cancel v (by exact_mod_cast hd.ne')
  unfold frhe ffloor
  dsimp only
  rw [hf, hv]
  rw [if_pos (by
    have : (2 : ℤ) * (v * s.den - v * s.den) = 0 := by ring
    rw [this]
    exact_mod_cast hd)]

/-- Binary64 rounding is exact on fractions denoting a positive integer
below `2 ^ 53`: the result is that integer (in an unnormalised
power-of-two representation). -/
theorem roundB64_int_exact (q : Frac) (m : ℕ) (hd : 0 < q.den)
    (hv : q.num = (m : ℤ) * q.den) (h1 : 1 ≤ m) (h53 : m < 2 ^ 53) :
    ∃ k : ℕ, roundB64 q = ⟨(m : ℤ) * 2 ^ k, 2 ^ k⟩ := by
  have hm0 : (0 : ℤ) < (m : ℤ) := by exact_mod_cast h1
  have hd' : (0 : ℤ) < (q.den : ℤ) := by exact_mod_cast hd
  have hn : 0 < q.num := by
    rw [hv]
    positivity
  have htr : q.toRat = (m : ℚ) := by
    unfold Frac.toRat
    rw [hv]
    push_cast
    rw [mul_div_assoc, div_self (by exact_mod_cast hd.ne'), mul_one]
  obtain ⟨hbl, hbu⟩ := findExp_bracket q hn hd
  rw [htr] at hbl
  set e := findExp q with he
  have he52 : e ≤ 52 := by
    by_contra hcon
    push_neg at hcon
    have h2e : (2 : ℚ) ^ (53 : ℤ) ≤ (2 : ℚ) ^ e := by
      apply zpow_le_zpow_right₀ (by norm_num)
      omega
    have hpow : (2 : ℚ) ^ (53 : ℤ) = ((2 ^ 53 : ℕ) : ℚ) := by norm_num
    have hm53 : (m : ℚ) < (2 : ℚ) ^ (53 : ℤ) := by
      rw [hpow]
      exact_mod_cast h53
    linarith
  set k := ((52 : ℤ) - e).toNat with hk
  have hfpos : fpow2 ((52 : ℤ) - e) = ⟨(2 : ℤ) ^ k, 2 ^ 0⟩ := by
    unfold fpow2
    rw [if_pos (by omega)]
    rw [← hk]
    norm_num
  have hfneg : fpow2 (e - (52 : ℤ)) = ⟨(2 : ℤ) ^ 0, 2 ^ k⟩ := by
    unfold fpow2
    by_cases h0 : (0 : ℤ) ≤ e - 52
    · have he' : e = 52 := by omega
      rw [if_pos h0]
      have hk0 : k = 0 := by omega
      rw [hk0, he']
      norm_num
    · rw [if_neg h0]
      have : (-(e - (52 : ℤ))).toNat = k := by omega
      rw [this]
      norm_num
  have hsden : 0 < (fmul q (fpow2 ((52 : ℤ) - e))).den := by
    rw [hfpos]
    unfold fmul
    dsimp only
    positivity
  have hsnum : (fmul q (fpow2 ((52 : ℤ) - e))).num
      = ((m : ℤ) * 2 ^ k) * (fmul q (fpow2 ((52 : ℤ) - e))).den := by
    rw [hfpos]
    unfold fmul
    dsimp only
    rw [hv]
    push_cast
    ring
  have hfr : frhe (fmul q (fpow2 ((52 : ℤ) - e))) = (m : ℤ) * 2 ^ k :=
    frhe_exact _ _ hsden hsnum
  refine ⟨k, ?_⟩
  unfold roundB64
  dsimp only
  rw [if_neg (by omega), ← he, hfr, hfneg]
  unfold fmul fofInt
  dsimp only
  congr 1
  · ring
  · norm_num

/-- `Math.floor(x * 1e8)` is exact for integer amounts up to `10^7`: both
binary64 roundings are identities there. -/
theorem floorTimes1e8_int (n : ℕ) (hle : n ≤ 10 ^ 7) :
    floorTimes1e8 ⟨(n : ℤ), 1⟩ = (n : ℤ) * 100000000 := by
  rcases Nat.eq_zero_or_pos n with h0 | hpos
  · subst h0
    decide
  · obtain ⟨k1, hr1⟩ := roundB64_int_exact ⟨(n : ℤ), 1⟩ n (by norm_num) (by simp) hpos
      (by calc n ≤ 10 ^ 7 := hle
            _ < 2 ^ 53 := by norm_num)
    unfold floorTimes1e8
    rw [hr1]
    have hm2 : 1 ≤ n * 100000000 := Nat.mul_pos hpos (by norm_num)
    have hm53 : n * 100000000 < 2 ^ 53 := by
      calc n * 100000000 ≤ 10 ^ 7 * 100000000 := by
            exact Nat.mul_le_mul_right _ hle
        _ < 2 ^ 53 := by norm_num
    obtain ⟨k2, hr2⟩ := roundB64_int_exact
      (fmul ⟨(n : ℤ) * 2 ^ k1, 2 ^ k1⟩ (fofInt 100000000)) (n * 100000000)
      (by unfold fmul fofInt; dsimp only; exact Nat.mul_pos (pow_pos (by norm_num) _) (by norm_num))
      (by unfold fmul fofInt; dsimp only; push_cast; ring)
      hm2 hm53
    rw [hr2]
    unfold ffloor
    dsimp only
    push_cast
    rw [show ((n : ℤ) * 100000000) * (2 : ℤ) ^ k2 = ((n : ℤ) * 100000000) * (2 : ℤ) ^ k2 from rfl]
    exact Int.mul_ediv_cancel _ (by positivity)

/-- `splitOnChar` leaves a separator-free list whole. -/
theorem splitOnChar_single (sep : Char) : ∀ (l : List Char), (∀ c ∈ l, c ≠ sep) →
    splitOnChar sep l = [l]
  | [] => fun _ => rfl
  | c :: rest => fun h => by
    unfold splitOnChar
    rw [splitOnChar_single sep rest (fun x hx => h x (List.mem_cons_of_mem _ hx))]
    rw [if_neg (h c (List.mem_cons_self ..))]

/-- Claim C4 amended: the conversions compute
`Math.floor(fl(fl(amount) * 10^8))` in binary64, which is exact for
whole-number amount strings up to `10^7` but not for every decimal string
with at most 8 fractional digits (see the counterexample at `0.29`). -/
theorem zecToZatoshis_exact_on_integer_amounts (s : List Char)
    (h0 : s ≠ []) (h1 : s.all isDigitChar = true) (hle : natOfDigits s ≤ 10 ^ 7) :
    zecToZatoshis s = some (Int.repr ((natOfDigits s : ℤ) * 100000000)).data
    ∧ handleWithdrawAmountBase s = some ((natOfDigits s : ℤ) * 100000000) := by
  have hnodot : ∀ c ∈ s, c ≠ '.' := by
    intro c hc hdot
    rw [List.all_eq_true] at h1
    have := h1 c hc
    rw [hdot] at this
    exact absurd this (by decide)
  have hparse : parseDecimal s = some ⟨(natOfDigits s : ℤ), 1⟩ := by
    unfold parseDecimal
    rw [splitOnChar_single '.' s hnodot]
    dsimp only
    rw [if_pos ⟨h0, h1⟩]
  have hcore := floorTimes1e8_int (natOfDigits s) hle
  constructor
  · unfold zecToZatoshis
    rw [hparse, Option.map_some', hcore]
  · unfold handleWithdrawAmountBase
    rw [hparse, Option.map_some', hcore]

/-- Witness for `zecToZatoshis_exact_on_integer_amounts` at the amount
string `3`. -/
theorem zecToZatoshis_exact_on_integer_amounts_witness :
    zecToZatoshis "3".data = some (Int.repr ((natOfDigits "3".data : ℤ) * 100000000)).data
    ∧ handleWithdrawAmountBase "3".data = some ((natOfDigits "3".data : ℤ) * 100000000) :=
  zecToZatoshis_exact_on_integer_amounts "3".data (by decide) (by decide) (by decide)

end Raven
